import Mathlib

/-!
Shallow embedding of the tagged-value binary serialization engine of
`src/main.cpp`: the little-endian primitive codec (`toLittleEndian`,
`fromLittleEndian`), the four value kinds (`IntegerType`, `FloatType`,
`StringType`, `VectorType`), the tagged union `Any`, and the top-level
`Serializator` container.

Modelling conventions:
- A `std::byte` buffer is a `List Nat`; in every execution of the C++
  program each byte is below 256.
- `uint64_t` arithmetic is carried out on `Nat`; the `uint64_t` typing
  of C++ values appears as explicit `< 2 ^ 64` bounds where it matters.
- The `static_cast<int64_t>` in the String bounds check is modelled by
  `toInt64`, the twos-complement reinterpretation on `Int`.
- `FloatType` holds a `double`; the code only ever observes its 64-bit
  IEEE-754 bit pattern (serialization reinterprets the bytes both ways
  and performs no numeric conversion), so the payload is modelled by
  that bit pattern.
- The C++ decoders throw `std::runtime_error`; the two thrown messages
  are modelled by `DecodeError.truncatedInput` ("Not enough data for
  deserialization") and `DecodeError.unknownTag` ("Unknown type ID").
  A read past the end of the buffer (which `value_.assign(ptr, size)`
  performs when the bounds check fails to fire; undefined behaviour in
  C++) is modelled by the distinguished outcome
  `DecodeError.outOfBoundsRead`.
-/

/-- Wire buffer, `std::vector<std::byte>`: a finite byte sequence. -/
abbrev Buffer := List Nat

/-- Observable decode outcomes of the C++ code (see module comment). -/
inductive DecodeError where
  | truncatedInput
  | unknownTag
  | outOfBoundsRead
deriving DecidableEq, Repr

/-- C++ `toLittleEndian<T>(value)` with `w = sizeof(T)`: each loop
iteration stores `value & 0xFF` and then shifts `value >>= 8`. -/
def toLittleEndian : Nat → Nat → List Nat
  | 0, _ => []
  | w + 1, value => (value &&& 0xFF) :: toLittleEndian w (value >>> 8)

/-- C++ `fromLittleEndian<T>(data)` with `w = sizeof(T)`: the loop
accumulates `result |= data[i] << (i * 8)` over the first `w` bytes. -/
def fromLittleEndian : Nat → List Nat → Nat
  | 0, _ => 0
  | w + 1, data => data.headD 0 ||| (fromLittleEndian w data.tail) <<< 8

/-- `static_cast<int64_t>` applied to a C++ `uint64_t` quantity:
twos-complement reinterpretation of the low 64 bits. -/
def toInt64 (n : Nat) : Int :=
  if n % 2 ^ 64 < 2 ^ 63 then ((n % 2 ^ 64 : Nat) : Int)
  else ((n % 2 ^ 64 : Nat) : Int) - 2 ^ 64

/-- The closed union stored by `Any`
(`std::variant<IntegerType, FloatType, StringType, VectorType>`).
`float bits` is the 64-bit IEEE-754 bit pattern of the stored double;
`string s` is the byte content of the stored `std::string`. -/
inductive Value where
  | integer (v : Nat)
  | float (bits : Nat)
  | string (s : List Nat)
  | vector (elems : List Value)

/-- `TypeId::Uint` enumerator value. -/
def TypeId.Uint : Nat := 0

/-- `TypeId::Float` enumerator value. -/
def TypeId.Float : Nat := 1

/-- `TypeId::String` enumerator value. -/
def TypeId.String : Nat := 2

/-- `TypeId::Vector` enumerator value. -/
def TypeId.Vector : Nat := 3

/-- `Any::getPayloadTypeId`: the `TypeId` of the active variant. -/
def typeIdOf : Value → Nat
  | .integer _ => TypeId.Uint
  | .float _ => TypeId.Float
  | .string _ => TypeId.String
  | .vector _ => TypeId.Vector

/-- `IntegerType::serialize`: append the 8-byte little-endian encoding
of the stored `uint64_t`. -/
def IntegerType.serialize (value : Nat) : Buffer :=
  toLittleEndian 8 value

/-- `FloatType::serialize`: reinterpret the stored double as a
`uint64_t` (identity on the bit pattern) and append its 8-byte
little-endian encoding. -/
def FloatType.serialize (bits : Nat) : Buffer :=
  toLittleEndian 8 bits

/-- `StringType::serialize`: append the 8-byte little-endian length,
then the raw content bytes. -/
def StringType.serialize (s : List Nat) : Buffer :=
  toLittleEndian 8 s.length ++ s

/-- `IntegerType::deserialize`: requires 8 remaining bytes (else throws
"Not enough data"), reads the value, advances the cursor by 8.  The
result pairs the decoded value with the remaining buffer. -/
def IntegerType.deserialize (buf : Buffer) : Except DecodeError (Nat × Buffer) :=
  if buf.length < 8 then .error .truncatedInput
  else .ok (fromLittleEndian 8 buf, buf.drop 8)

/-- `FloatType::deserialize`: requires 8 remaining bytes, reads the raw
`uint64_t` and reinterprets it as a double (identity on the pattern). -/
def FloatType.deserialize (buf : Buffer) : Except DecodeError (Nat × Buffer) :=
  if buf.length < 8 then .error .truncatedInput
  else .ok (fromLittleEndian 8 buf, buf.drop 8)

/-- `StringType::deserialize`: reads the 8-byte length `size`, then
checks `std::distance(begin, end) < static_cast<int64_t>(size)` and
throws "Not enough data" when that comparison holds; otherwise it
executes `value_.assign(..., size)`, which reads `size` bytes — past
the end of the buffer when fewer than `size` remain (modelled by
`DecodeError.outOfBoundsRead`). -/
def StringType.deserialize (buf : Buffer) : Except DecodeError (List Nat × Buffer) :=
  if buf.length < 8 then .error .truncatedInput
  else
    let size := fromLittleEndian 8 buf
    let rest := buf.drop 8
    if (rest.length : Int) < toInt64 size then .error .truncatedInput
    else if rest.length < size then .error .outOfBoundsRead
    else .ok (rest.take size, rest.drop size)

/-! Primitive codec lemmas. -/

theorem toLittleEndian_length (w value : Nat) : (toLittleEndian w value).length = w := by
  induction w generalizing value with
  | zero => rfl
  | succ w ih => simp [toLittleEndian, ih]

theorem lor_shiftLeft_eq_add {b : Nat} (hb : b < 2 ^ 8) (x : Nat) :
    b ||| x <<< 8 = b + x * 2 ^ 8 := by
  have h := Nat.mul_add_lt_is_or hb x
  rw [Nat.shiftLeft_eq, Nat.lor_comm, mul_comm x (2 ^ 8), ← h]
  omega

theorem and_255_eq_mod (value : Nat) : value &&& 0xFF = value % 256 := by
  have h := Nat.and_pow_two_sub_one_eq_mod value 8
  norm_num at h
  exact h

theorem fromLittleEndian_toLittleEndian_append (w value : Nat) (rest : List Nat) :
    fromLittleEndian w (toLittleEndian w value ++ rest) = value % 2 ^ (8 * w) := by
  induction w generalizing value with
  | zero => simp [fromLittleEndian, toLittleEndian, Nat.mod_one]
  | succ w ih =>
    simp only [toLittleEndian, fromLittleEndian, List.cons_append, List.headD_cons,
      List.tail_cons]
    rw [ih (value >>> 8), and_255_eq_mod,
      lor_shiftLeft_eq_add (by omega : value % 256 < 2 ^ 8),
      Nat.shiftRight_eq_div_pow]
    have h1 : value % (256 * 2 ^ (8 * w)) = value % 256 + 256 * (value / 256 % 2 ^ (8 * w)) :=
      Nat.mod_mul
    have h2 : 2 ^ (8 * (w + 1)) = 256 * 2 ^ (8 * w) := by
      rw [Nat.mul_succ, pow_add]
      ring
    have h3 : (2 : Nat) ^ 8 = 256 := by norm_num
    rw [h2, h1, h3]
    omega

theorem fromLittleEndian_toLittleEndian (w value : Nat) :
    fromLittleEndian w (toLittleEndian w value) = value % 2 ^ (8 * w) := by
  have h := fromLittleEndian_toLittleEndian_append w value []
  simpa using h

theorem toLittleEndian_append_length (v : Nat) (rest : List Nat) :
    (toLittleEndian 8 v ++ rest).length = 8 + rest.length := by
  simp [toLittleEndian_length]

theorem drop_toLittleEndian_append (v : Nat) (rest : List Nat) :
    (toLittleEndian 8 v ++ rest).drop 8 = rest :=
  List.drop_left' (toLittleEndian_length 8 v)

theorem fromLittleEndian_toLittleEndian_append64 (v : Nat) (hv : v < 2 ^ 64) (rest : List Nat) :
    fromLittleEndian 8 (toLittleEndian 8 v ++ rest) = v := by
  rw [fromLittleEndian_toLittleEndian_append]
  have h : (2 : Nat) ^ (8 * 8) = 2 ^ 64 := by norm_num
  rw [h]
  exact Nat.mod_eq_of_lt hv

theorem toInt64_le (n : Nat) : toInt64 n ≤ (n : Int) := by
  unfold toInt64
  have h := Nat.mod_le n (2 ^ 64)
  split <;> omega

/-! Scalar payload round trips. -/

theorem integer_payload_roundtrip (v : Nat) (hv : v < 2 ^ 64) (rest : Buffer) :
    IntegerType.deserialize (IntegerType.serialize v ++ rest) = .ok (v, rest) := by
  unfold IntegerType.serialize IntegerType.deserialize
  rw [if_neg (by simp [toLittleEndian_length])]
  rw [fromLittleEndian_toLittleEndian_append64 v hv, drop_toLittleEndian_append]

theorem float_payload_roundtrip (bits : Nat) (hv : bits < 2 ^ 64) (rest : Buffer) :
    FloatType.deserialize (FloatType.serialize bits ++ rest) = .ok (bits, rest) := by
  unfold FloatType.serialize FloatType.deserialize
  rw [if_neg (by simp [toLittleEndian_length])]
  rw [fromLittleEndian_toLittleEndian_append64 bits hv, drop_toLittleEndian_append]

theorem string_payload_roundtrip (s : List Nat) (hs : s.length < 2 ^ 64) (rest : Buffer) :
    StringType.deserialize (StringType.serialize s ++ rest) = .ok (s, rest) := by
  unfold StringType.serialize StringType.deserialize
  rw [List.append_assoc]
  rw [if_neg (by simp [toLittleEndian_length])]
  simp only [fromLittleEndian_toLittleEndian_append64 s.length hs, drop_toLittleEndian_append]
  have hle : toInt64 s.length ≤ (s.length : Int) := toInt64_le s.length
  have hlen : (s ++ rest).length = s.length + rest.length := List.length_append s rest
  rw [if_neg (by push_cast [hlen]; omega)]
  rw [if_neg (by omega)]
  rw [List.take_left' rfl, List.drop_left' rfl]

/-! Length facts about the scalar decoders, used to justify termination
of the recursive decoders below. -/

theorem integer_deserialize_ok_length {buf : Buffer} {p : Nat × Buffer}
    (h : IntegerType.deserialize buf = .ok p) : p.2.length ≤ buf.length := by
  unfold IntegerType.deserialize at h
  split at h
  · cases h
  · cases h
    simp

theorem float_deserialize_ok_length {buf : Buffer} {p : Nat × Buffer}
    (h : FloatType.deserialize buf = .ok p) : p.2.length ≤ buf.length := by
  unfold FloatType.deserialize at h
  split at h
  · cases h
  · cases h
    simp

theorem string_deserialize_ok_length {buf : Buffer} {p : List Nat × Buffer}
    (h : StringType.deserialize buf = .ok p) : p.2.length ≤ buf.length := by
  unfold StringType.deserialize at h
  split at h
  · cases h
  · dsimp only at h
    split at h
    · cases h
    · split at h
      · cases h
      · cases h
        simp

/-! The serializer of `Any` / `VectorType` / `Serializator`.
`Any::serialize` writes the 8-byte `TypeId` of the active variant and
delegates to the variant; `VectorType::serialize` writes the 8-byte
element count and then serializes each element in order (the loop is
`serializeEach`). -/

mutual

def Any.serialize : Value → Buffer
  | .integer v => toLittleEndian 8 TypeId.Uint ++ IntegerType.serialize v
  | .float bits => toLittleEndian 8 TypeId.Float ++ FloatType.serialize bits
  | .string s => toLittleEndian 8 TypeId.String ++ StringType.serialize s
  | .vector es => toLittleEndian 8 TypeId.Vector ++ VectorType.serialize es
termination_by v => (sizeOf v, 0)

def VectorType.serialize (elements : List Value) : Buffer :=
  toLittleEndian 8 elements.length ++ serializeEach elements
termination_by (sizeOf elements, 1)

def serializeEach : List Value → Buffer
  | [] => []
  | element :: rest => Any.serialize element ++ serializeEach rest
termination_by es => (sizeOf es, 0)

end

/-- `Serializator::serialize`: 8-byte count of stored values, then each
stored value in push order via `Any::serialize`. -/
def Serializator.serialize (storage : List Value) : Buffer :=
  toLittleEndian 8 storage.length ++ serializeEach storage

/-! Well-formedness: a `Value` of the model is representable as a C++
value exactly when every `uint64_t` payload and every container size
fits in 64 bits and every string byte is a `char` value. -/

mutual

def Value.wf : Value → Bool
  | .integer v => decide (v < 2 ^ 64)
  | .float bits => decide (bits < 2 ^ 64)
  | .string s => decide (s.length < 2 ^ 64) && s.all fun b => decide (b < 256)
  | .vector es => decide (es.length < 2 ^ 64) && allWf es
termination_by v => sizeOf v

def allWf : List Value → Bool
  | [] => true
  | e :: rest => Value.wf e && allWf rest
termination_by es => sizeOf es

end

/-! The recursive decoders.  `Any::deserialize` reads the 8-byte
discriminant and dispatches on it (the C++ `switch`); the `Vector`
branch recurses into `VectorType::deserialize`, whose per-element loop
is `deserializeElems`.  Termination is by the length of the remaining
buffer: each successful `Any::deserialize` consumes at least the 8 tag
bytes, which the `Except` payload records as the invariant
`p.2.length + 8 ≤ buf.length`. -/

mutual

def Any.deserialize (buf : Buffer) :
    Except DecodeError {p : Value × Buffer // p.2.length + 8 ≤ buf.length} :=
  if h : buf.length < 8 then .error .truncatedInput
  else
    let typeId := fromLittleEndian 8 buf
    if typeId = TypeId.Uint then
      match h0 : IntegerType.deserialize (buf.drop 8) with
      | .error e => .error e
      | .ok p =>
        .ok ⟨(.integer p.1, p.2), by
          have hl := integer_deserialize_ok_length h0
          simp only [List.length_drop] at hl
          dsimp only
          omega⟩
    else if typeId = TypeId.Float then
      match h1 : FloatType.deserialize (buf.drop 8) with
      | .error e => .error e
      | .ok p =>
        .ok ⟨(.float p.1, p.2), by
          have hl := float_deserialize_ok_length h1
          simp only [List.length_drop] at hl
          dsimp only
          omega⟩
    else if typeId = TypeId.String then
      match h2 : StringType.deserialize (buf.drop 8) with
      | .error e => .error e
      | .ok p =>
        .ok ⟨(.string p.1, p.2), by
          have hl := string_deserialize_ok_length h2
          simp only [List.length_drop] at hl
          dsimp only
          omega⟩
    else if typeId = TypeId.Vector then
      match VectorType.deserialize (buf.drop 8) with
      | .error e => .error e
      | .ok ⟨p, hp⟩ =>
        .ok ⟨(.vector p.1, p.2), by
          simp only [List.length_drop] at hp
          dsimp only
          omega⟩
    else .error .unknownTag
termination_by (buf.length, 0)

def VectorType.deserialize (buf : Buffer) :
    Except DecodeError {p : List Value × Buffer // p.2.length ≤ buf.length} :=
  if h : buf.length < 8 then .error .truncatedInput
  else
    match deserializeElems (fromLittleEndian 8 buf) (buf.drop 8) with
    | .error e => .error e
    | .ok ⟨p, hp⟩ =>
      .ok ⟨p, by
        simp only [List.length_drop] at hp
        omega⟩
termination_by (buf.length, 0)

def deserializeElems (size : Nat) (buf : Buffer) :
    Except DecodeError {p : List Value × Buffer // p.2.length ≤ buf.length} :=
  match size with
  | 0 => .ok ⟨([], buf), Nat.le_refl _⟩
  | n + 1 =>
    match Any.deserialize buf with
    | .error e => .error e
    | .ok ⟨pr, hpr⟩ =>
      match deserializeElems n pr.2 with
      | .error e => .error e
      | .ok ⟨q, hq⟩ =>
        .ok ⟨(pr.1 :: q.1, q.2), by
          dsimp only
          omega⟩
termination_by (buf.length, size + 1)

end

/-- `Serializator::deserialize`: reads the 8-byte count, then decodes
that many tagged values in sequence, returning only the decoded list
(the final cursor is dropped; trailing bytes are never examined). -/
def Serializator.deserialize (buffer : Buffer) : Except DecodeError (List Value) :=
  if buffer.length < 8 then .error .truncatedInput
  else
    match deserializeElems (fromLittleEndian 8 buffer) (buffer.drop 8) with
    | .error e => .error e
    | .ok ⟨(vs, _), _⟩ => .ok vs

/-! Plain (subtype-free) views of the recursive decoders, used in all
statements below. -/

def Any.deserializeV (buf : Buffer) : Except DecodeError (Value × Buffer) :=
  (Any.deserialize buf).map Subtype.val

def VectorType.deserializeV (buf : Buffer) : Except DecodeError (List Value × Buffer) :=
  (VectorType.deserialize buf).map Subtype.val

def deserializeElemsV (size : Nat) (buf : Buffer) : Except DecodeError (List Value × Buffer) :=
  (deserializeElems size buf).map Subtype.val

/-! Projection helpers between the subtype-carrying decoders and their
plain views. -/

theorem map_val_error_iff {E α : Type} {P : α → Prop} {r : Except E {a : α // P a}} {e : E} :
    r.map Subtype.val = .error e ↔ r = .error e := by
  cases r <;> simp [Except.map]

theorem map_val_ok {E α : Type} {P : α → Prop} {r : Except E {a : α // P a}} {p : α}
    (h : r.map Subtype.val = .ok p) : ∃ hp : P p, r = .ok ⟨p, hp⟩ := by
  cases r with
  | error e => simp [Except.map] at h
  | ok q =>
    obtain ⟨a, ha⟩ := q
    simp [Except.map] at h
    subst h
    exact ⟨ha, rfl⟩

/-! Unfolding lemmas for the plain views of the decoders. -/

theorem deserializeElemsV_zero (buf : Buffer) : deserializeElemsV 0 buf = .ok ([], buf) := by
  simp [deserializeElemsV, deserializeElems, Except.map]

theorem deserializeElemsV_succ_err {n : Nat} {buf : Buffer} {e : DecodeError}
    (hA : Any.deserializeV buf = .error e) :
    deserializeElemsV (n + 1) buf = .error e := by
  rw [Any.deserializeV, map_val_error_iff] at hA
  unfold deserializeElemsV
  rw [deserializeElems.eq_2, hA]
  rfl

theorem deserializeElemsV_succ_ok {n : Nat} {buf : Buffer} {v : Value} {rest : Buffer}
    (hA : Any.deserializeV buf = .ok (v, rest)) :
    deserializeElemsV (n + 1) buf =
      match deserializeElemsV n rest with
      | .error e => .error e
      | .ok q => .ok (v :: q.1, q.2) := by
  rw [Any.deserializeV] at hA
  obtain ⟨hp, hA0⟩ := map_val_ok hA
  unfold deserializeElemsV
  rw [deserializeElems.eq_2, hA0]
  dsimp only
  cases hE : deserializeElems n rest with
  | error e => simp [hE, Except.map]
  | ok q =>
    obtain ⟨q, hq⟩ := q
    simp [hE, Except.map]

theorem VectorType.deserializeV_eq (buf : Buffer) :
    VectorType.deserializeV buf =
      if buf.length < 8 then .error .truncatedInput
      else
        match deserializeElemsV (fromLittleEndian 8 buf) (buf.drop 8) with
        | .error e => .error e
        | .ok q => .ok q := by
  by_cases h : buf.length < 8
  · simp [VectorType.deserializeV, VectorType.deserialize, h, Except.map]
  · rw [if_neg h]
    unfold VectorType.deserializeV VectorType.deserialize
    rw [dif_neg h]
    cases hE : deserializeElems (fromLittleEndian 8 buf) (buf.drop 8) with
    | error e => simp [deserializeElemsV, hE, Except.map]
    | ok q =>
      obtain ⟨q, hq⟩ := q
      simp [deserializeElemsV, hE, Except.map]

theorem Serializator.deserialize_eq (buffer : Buffer) :
    Serializator.deserialize buffer =
      if buffer.length < 8 then .error .truncatedInput
      else
        match deserializeElemsV (fromLittleEndian 8 buffer) (buffer.drop 8) with
        | .error e => .error e
        | .ok q => .ok q.1 := by
  by_cases h : buffer.length < 8
  · simp [Serializator.deserialize, h]
  · rw [if_neg h]
    unfold Serializator.deserialize
    rw [if_neg h]
    cases hE : deserializeElems (fromLittleEndian 8 buffer) (buffer.drop 8) with
    | error e => simp [deserializeElemsV, hE, Except.map]
    | ok q =>
      obtain ⟨⟨vs, rem⟩, hq⟩ := q
      simp [deserializeElemsV, hE, Except.map]

theorem Any.deserializeV_short {buf : Buffer} (h : buf.length < 8) :
    Any.deserializeV buf = .error .truncatedInput := by
  simp [Any.deserializeV, Any.deserialize, h, Except.map]

theorem Any.deserializeV_uint {buf : Buffer} (h : ¬ buf.length < 8)
    (ht : fromLittleEndian 8 buf = 0) :
    Any.deserializeV buf =
      (IntegerType.deserialize (buf.drop 8)).map fun p => (Value.integer p.1, p.2) := by
  unfold Any.deserializeV Any.deserialize
  rw [dif_neg h]
  dsimp only
  rw [ht, if_pos (show (0 : Nat) = TypeId.Uint by rfl)]
  split
  · rename_i e heq
    rw [heq]
    rfl
  · rename_i p heq
    conv_rhs => rw [heq]
    rfl

theorem Any.deserializeV_float {buf : Buffer} (h : ¬ buf.length < 8)
    (ht : fromLittleEndian 8 buf = 1) :
    Any.deserializeV buf =
      (FloatType.deserialize (buf.drop 8)).map fun p => (Value.float p.1, p.2) := by
  unfold Any.deserializeV Any.deserialize
  rw [dif_neg h]
  dsimp only
  rw [ht, if_neg (by simp [TypeId.Uint]), if_pos (show (1 : Nat) = TypeId.Float by rfl)]
  split
  · rename_i e heq
    rw [heq]
    rfl
  · rename_i p heq
    conv_rhs => rw [heq]
    rfl

theorem Any.deserializeV_string {buf : Buffer} (h : ¬ buf.length < 8)
    (ht : fromLittleEndian 8 buf = 2) :
    Any.deserializeV buf =
      (StringType.deserialize (buf.drop 8)).map fun p => (Value.string p.1, p.2) := by
  unfold Any.deserializeV Any.deserialize
  rw [dif_neg h]
  dsimp only
  rw [ht, if_neg (by simp [TypeId.Uint]), if_neg (by simp [TypeId.Float]),
    if_pos (show (2 : Nat) = TypeId.String by rfl)]
  split
  · rename_i e heq
    rw [heq]
    rfl
  · rename_i p heq
    conv_rhs => rw [heq]
    rfl

theorem Any.deserializeV_vector {buf : Buffer} (h : ¬ buf.length < 8)
    (ht : fromLittleEndian 8 buf = 3) :
    Any.deserializeV buf =
      (VectorType.deserializeV (buf.drop 8)).map fun p => (Value.vector p.1, p.2) := by
  unfold Any.deserializeV Any.deserialize
  rw [dif_neg h]
  dsimp only
  rw [ht, if_neg (by simp [TypeId.Uint]), if_neg (by simp [TypeId.Float]),
    if_neg (by simp [TypeId.String]), if_pos (show (3 : Nat) = TypeId.Vector by rfl)]
  cases hE : VectorType.deserialize (buf.drop 8) with
  | error e => simp [VectorType.deserializeV, hE, Except.map]
  | ok q =>
    obtain ⟨q, hq⟩ := q
    simp [VectorType.deserializeV, hE, Except.map]

theorem Any.deserializeV_unknown {buf : Buffer} (h : ¬ buf.length < 8)
    (ht : fromLittleEndian 8 buf ≠ 0) (ht1 : fromLittleEndian 8 buf ≠ 1)
    (ht2 : fromLittleEndian 8 buf ≠ 2) (ht3 : fromLittleEndian 8 buf ≠ 3) :
    Any.deserializeV buf = .error .unknownTag := by
  unfold Any.deserializeV Any.deserialize
  rw [dif_neg h]
  dsimp only
  rw [if_neg (by simpa [TypeId.Uint] using ht), if_neg (by simpa [TypeId.Float] using ht1),
    if_neg (by simpa [TypeId.String] using ht2), if_neg (by simpa [TypeId.Vector] using ht3)]
  rfl

/-! Round trip: decoding an encoding consumes exactly the encoding and
reconstructs the value, for every representable value and arbitrary
trailing bytes. -/

mutual

theorem any_roundtrip (v : Value) (hw : Value.wf v = true) (extra : Buffer) :
    Any.deserializeV (Any.serialize v ++ extra) = .ok (v, extra) := by
  cases v with
  | integer n =>
    have hn : n < 2 ^ 64 := by simpa [Value.wf] using hw
    simp only [Any.serialize, List.append_assoc]
    rw [Any.deserializeV_uint (by rw [toLittleEndian_append_length]; omega)
      (fromLittleEndian_toLittleEndian_append64 TypeId.Uint (by norm_num [TypeId.Uint]) _),
      drop_toLittleEndian_append, integer_payload_roundtrip n hn]
    rfl
  | float bits =>
    have hn : bits < 2 ^ 64 := by simpa [Value.wf] using hw
    simp only [Any.serialize, List.append_assoc]
    rw [Any.deserializeV_float (by rw [toLittleEndian_append_length]; omega)
      (fromLittleEndian_toLittleEndian_append64 TypeId.Float (by norm_num [TypeId.Float]) _),
      drop_toLittleEndian_append, float_payload_roundtrip bits hn]
    rfl
  | string s =>
    have hn : s.length < 2 ^ 64 := by
      have := hw
      simp [Value.wf] at this
      exact this.1
    simp only [Any.serialize, List.append_assoc]
    rw [Any.deserializeV_string (by rw [toLittleEndian_append_length]; omega)
      (fromLittleEndian_toLittleEndian_append64 TypeId.String (by norm_num [TypeId.String]) _),
      drop_toLittleEndian_append, string_payload_roundtrip s hn]
    rfl
  | vector es =>
    have hn : es.length < 2 ^ 64 ∧ allWf es = true := by
      have := hw
      simp [Value.wf] at this
      exact this
    simp only [Any.serialize, VectorType.serialize, List.append_assoc]
    rw [Any.deserializeV_vector (by rw [toLittleEndian_append_length]; omega)
      (fromLittleEndian_toLittleEndian_append64 TypeId.Vector (by norm_num [TypeId.Vector]) _),
      drop_toLittleEndian_append]
    rw [VectorType.deserializeV_eq,
      if_neg (by rw [toLittleEndian_append_length]; omega),
      fromLittleEndian_toLittleEndian_append64 es.length hn.1,
      drop_toLittleEndian_append]
    rw [elems_roundtrip es hn.2 extra]
    rfl
termination_by sizeOf v

theorem elems_roundtrip (vs : List Value) (hw : allWf vs = true) (extra : Buffer) :
    deserializeElemsV vs.length (serializeEach vs ++ extra) = .ok (vs, extra) := by
  cases vs with
  | nil =>
    simp only [serializeEach, List.length_nil, List.nil_append]
    exact deserializeElemsV_zero extra
  | cons v rest =>
    have hw1 : Value.wf v = true ∧ allWf rest = true := by simpa [allWf] using hw
    simp only [serializeEach, List.append_assoc, List.length_cons]
    rw [deserializeElemsV_succ_ok (any_roundtrip v hw1.1 (serializeEach rest ++ extra))]
    rw [elems_roundtrip rest hw1.2 extra]
termination_by sizeOf vs

end

/-- Container round trip with arbitrary trailing bytes: the count and
each element decode from the encoded prefix alone. -/
theorem Serializator.roundtrip_append (storage : List Value) (h1 : storage.length < 2 ^ 64)
    (h2 : allWf storage = true) (extra : Buffer) :
    Serializator.deserialize (Serializator.serialize storage ++ extra) = .ok storage := by
  unfold Serializator.serialize
  rw [List.append_assoc, Serializator.deserialize_eq,
    if_neg (by rw [toLittleEndian_append_length]; omega),
    fromLittleEndian_toLittleEndian_append64 storage.length h1, drop_toLittleEndian_append,
    elems_roundtrip storage h2 extra]

theorem take8_toLittleEndian_append (t : Nat) (rest : List Nat) :
    (toLittleEndian 8 t ++ rest).take 8 = toLittleEndian 8 t :=
  List.take_left' (toLittleEndian_length 8 t)

theorem toLittleEndian_getD (w v i : Nat) (h : i < w) :
    (toLittleEndian w v).getD i 0 = v / 2 ^ (8 * i) % 256 := by
  induction w generalizing v i with
  | zero => omega
  | succ w ih =>
    cases i with
    | zero => simp [toLittleEndian, and_255_eq_mod]
    | succ i =>
      simp only [toLittleEndian, List.getD_cons_succ]
      rw [ih (v >>> 8) i (by omega), Nat.shiftRight_eq_div_pow,
        Nat.div_div_eq_div_mul]
      have he : 8 * (i + 1) = 8 + 8 * i := by ring
      rw [he, pow_add]

/-! The claims. -/

/-- Claim C1: for every container whose stored values are built from
Integer, Float, String and Vector with any finite nesting (that is,
every representable container: sizes fit `uint64_t`, string bytes are
chars), `Serializator::deserialize` applied to the buffer returned by
`serialize` succeeds and returns the same ordered sequence of tagged
values, element by element. -/
theorem C1_container_roundtrip (storage : List Value) (h1 : storage.length < 2 ^ 64)
    (h2 : allWf storage = true) :
    Serializator.deserialize (Serializator.serialize storage) = .ok storage := by
  have h := Serializator.roundtrip_append storage h1 h2 []
  rwa [List.append_nil] at h

theorem C1_container_roundtrip_witness :
    Serializator.deserialize
        (Serializator.serialize [Value.integer 5, Value.string [120]]) =
      .ok [Value.integer 5, Value.string [120]] :=
  C1_container_roundtrip [Value.integer 5, Value.string [120]] (by decide)
    (by simp [allWf, Value.wf])

/-- Claim C2 (code bug): the declared-length bounds check of
`StringType::deserialize` compares `std::distance(begin, end)` against
`static_cast<int64_t>(size)`; for a declared length of `2 ^ 63` the
cast yields a negative number, the check passes, and the code reads
`2 ^ 63` bytes past the end of the buffer instead of failing with
TruncatedInput as the claim requires.  This theorem evaluates the
model of the code at that failing input: an 8-byte buffer holding the
little-endian length `2 ^ 63` followed by no content bytes. -/
theorem C2_string_signed_length_eval :
    StringType.deserialize [0, 0, 0, 0, 0, 0, 0, 128] = .error .outOfBoundsRead ∧
    fromLittleEndian 8 [0, 0, 0, 0, 0, 0, 0, 128] = 2 ^ 63 := by
  constructor
  · rfl
  · decide

/-- Claim C3: with at least 8 bytes at the cursor, `Any::deserialize`
reads the 8-byte discriminant; a code outside `{0, 1, 2, 3}` fails
with UnknownTag, and each known code delegates to the corresponding
variant decoder (0 Integer, 1 Float, 2 String, 3 Vector). -/
theorem C3_any_tag_dispatch (buf : Buffer) (h : 8 ≤ buf.length) :
    (fromLittleEndian 8 buf = 0 →
      Any.deserializeV buf =
        (IntegerType.deserialize (buf.drop 8)).map fun p => (Value.integer p.1, p.2)) ∧
    (fromLittleEndian 8 buf = 1 →
      Any.deserializeV buf =
        (FloatType.deserialize (buf.drop 8)).map fun p => (Value.float p.1, p.2)) ∧
    (fromLittleEndian 8 buf = 2 →
      Any.deserializeV buf =
        (StringType.deserialize (buf.drop 8)).map fun p => (Value.string p.1, p.2)) ∧
    (fromLittleEndian 8 buf = 3 →
      Any.deserializeV buf =
        (VectorType.deserializeV (buf.drop 8)).map fun p => (Value.vector p.1, p.2)) ∧
    (fromLittleEndian 8 buf ∉ ([0, 1, 2, 3] : List Nat) →
      Any.deserializeV buf = .error .unknownTag) := by
  refine ⟨fun ht => Any.deserializeV_uint (by omega) ht,
    fun ht => Any.deserializeV_float (by omega) ht,
    fun ht => Any.deserializeV_string (by omega) ht,
    fun ht => Any.deserializeV_vector (by omega) ht,
    fun ht => ?_⟩
  simp only [List.mem_cons, List.mem_singleton, List.not_mem_nil, or_false] at ht
  push_neg at ht
  exact Any.deserializeV_unknown (by omega) ht.1 ht.2.1 ht.2.2.1 ht.2.2.2

theorem C3_any_tag_dispatch_witness :
    Any.deserializeV [4, 0, 0, 0, 0, 0, 0, 0] = .error .unknownTag :=
  (C3_any_tag_dispatch [4, 0, 0, 0, 0, 0, 0, 0] (by decide)).2.2.2.2 (by decide)

/-- Claim C4: exact byte layouts of the payload encoders: Integer 1 is
the 8 bytes 01 00 00 00 00 00 00 00; String "ab" is the 8-byte length
02 00 00 00 00 00 00 00 followed by 61 62; the empty Vector is 8 zero
bytes and nothing after them. -/
theorem C4_byte_layouts :
    IntegerType.serialize 1 = [1, 0, 0, 0, 0, 0, 0, 0] ∧
    StringType.serialize [0x61, 0x62] = [2, 0, 0, 0, 0, 0, 0, 0, 0x61, 0x62] ∧
    VectorType.serialize [] = [0, 0, 0, 0, 0, 0, 0, 0] := by
  refine ⟨by decide, by decide, ?_⟩
  rw [VectorType.serialize, serializeEach]
  decide

/-- Claim C5: the wire tag codes are exactly 0 for Uint, 1 for Float,
2 for String, 3 for Vector; `Any::serialize` writes exactly the 8-byte
encoding of the tag of the active variant as the first 8 bytes; and
decoding the encoding of any representable value yields a value of the
same variant (the encode-side and decode-side tag tables agree). -/
theorem C5_stable_tag_codes :
    TypeId.Uint = 0 ∧ TypeId.Float = 1 ∧ TypeId.String = 2 ∧ TypeId.Vector = 3 ∧
    (∀ v : Value, (Any.serialize v).take 8 = toLittleEndian 8 (typeIdOf v)) ∧
    (∀ (v : Value) (extra : Buffer), Value.wf v = true →
      ∃ w rest, Any.deserializeV (Any.serialize v ++ extra) = .ok (w, rest) ∧
        typeIdOf w = typeIdOf v) := by
  refine ⟨rfl, rfl, rfl, rfl, fun v => ?_, fun v extra hw => ⟨v, extra, any_roundtrip v hw extra, rfl⟩⟩
  cases v <;> simp only [Any.serialize, typeIdOf] <;> exact take8_toLittleEndian_append _ _

theorem C5_stable_tag_codes_witness :
    ∃ w rest, Any.deserializeV (Any.serialize (Value.integer 7) ++ []) = .ok (w, rest) ∧
      typeIdOf w = typeIdOf (Value.integer 7) :=
  C5_stable_tag_codes.2.2.2.2.2 (Value.integer 7) [] (by simp [Value.wf])

/-- Claim C6: for every `uint64_t` value, `toLittleEndian` produces
exactly 8 bytes, byte i being the i-th little-endian byte
`v / 2 ^ (8 i) % 256`, and `fromLittleEndian` recovers the value. -/
theorem C6_primitive_codec (v : Nat) (hv : v < 2 ^ 64) :
    (toLittleEndian 8 v).length = 8 ∧
    (∀ i, i < 8 → (toLittleEndian 8 v).getD i 0 = v / 2 ^ (8 * i) % 256) ∧
    fromLittleEndian 8 (toLittleEndian 8 v) = v := by
  refine ⟨toLittleEndian_length 8 v, fun i hi => toLittleEndian_getD 8 v i hi, ?_⟩
  rw [fromLittleEndian_toLittleEndian]
  have h : (2 : Nat) ^ (8 * 8) = 2 ^ 64 := by norm_num
  rw [h]
  exact Nat.mod_eq_of_lt hv

theorem C6_primitive_codec_witness :
    (toLittleEndian 8 81985529216486895).length = 8 ∧
    (toLittleEndian 8 81985529216486895).getD 3 0 = 81985529216486895 / 2 ^ (8 * 3) % 256 ∧
    fromLittleEndian 8 (toLittleEndian 8 81985529216486895) = 81985529216486895 := by
  obtain ⟨h1, h2, h3⟩ := C6_primitive_codec 81985529216486895 (by norm_num)
  exact ⟨h1, h2 3 (by norm_num), h3⟩

/-- Claim C7: floats travel as the 64-bit IEEE-754 bit pattern of the
double, reinterpreted (not converted) on both sides, so every 64-bit
pattern — including NaN payloads and the signed zero pattern — is
bit-for-bit identical after a serialize-then-deserialize round trip,
at the payload level and through `Any`. -/
theorem C7_float_bit_pattern (bits : Nat) (h : bits < 2 ^ 64) (rest : Buffer) :
    FloatType.serialize bits = toLittleEndian 8 bits ∧
    FloatType.deserialize (FloatType.serialize bits ++ rest) = .ok (bits, rest) ∧
    Any.deserializeV (Any.serialize (Value.float bits) ++ rest) = .ok (Value.float bits, rest) :=
  ⟨rfl, float_payload_roundtrip bits h rest,
    any_roundtrip (Value.float bits) (by simp [Value.wf]; omega) rest⟩

theorem C7_float_bit_pattern_witness :
    FloatType.deserialize (FloatType.serialize 9221120237041090565 ++ []) =
      .ok (9221120237041090565, []) :=
  (C7_float_bit_pattern 9221120237041090565 (by norm_num) []).2.1

/-- Claim C8: any inner decode failure aborts the enclosing Vector,
Any or Container decode with the same error; the `Except` result type
of the model makes a partly populated result impossible on the
error path. -/
theorem C8_error_propagation (n : Nat) (buf : Buffer) (e : DecodeError) :
    (Any.deserializeV buf = .error e → deserializeElemsV (n + 1) buf = .error e) ∧
    (∀ v rest, Any.deserializeV buf = .ok (v, rest) → deserializeElemsV n rest = .error e →
      deserializeElemsV (n + 1) buf = .error e) ∧
    (8 ≤ buf.length → deserializeElemsV (fromLittleEndian 8 buf) (buf.drop 8) = .error e →
      VectorType.deserializeV buf = .error e ∧ Serializator.deserialize buf = .error e) ∧
    (8 ≤ buf.length → fromLittleEndian 8 buf = 3 →
      VectorType.deserializeV (buf.drop 8) = .error e → Any.deserializeV buf = .error e) := by
  refine ⟨fun hA => deserializeElemsV_succ_err hA, fun v rest hA hE => ?_, fun h hE => ?_,
    fun h ht hV => ?_⟩
  · rw [deserializeElemsV_succ_ok hA, hE]
  · constructor
    · rw [VectorType.deserializeV_eq, if_neg (by omega), hE]
    · rw [Serializator.deserialize_eq, if_neg (by omega), hE]
  · rw [Any.deserializeV_vector (by omega) ht, hV]
    rfl

theorem C8_error_propagation_witness :
    deserializeElemsV 1 [] = .error .truncatedInput ∧
    deserializeElemsV 2 (Any.serialize (Value.integer 0)) = .error .truncatedInput ∧
    Serializator.deserialize [1, 0, 0, 0, 0, 0, 0, 0] = .error .truncatedInput ∧
    Any.deserializeV [3, 0, 0, 0, 0, 0, 0, 0] = .error .truncatedInput := by
  have hshort : Any.deserializeV [] = .error .truncatedInput :=
    Any.deserializeV_short (by decide)
  have h1 : deserializeElemsV 1 [] = .error .truncatedInput :=
    (C8_error_propagation 0 [] .truncatedInput).1 hshort
  have hA : Any.deserializeV (Any.serialize (Value.integer 0) ++ []) =
      .ok (Value.integer 0, []) :=
    any_roundtrip (Value.integer 0) (by simp [Value.wf]) []
  rw [List.append_nil] at hA
  have h2 : deserializeElemsV 2 (Any.serialize (Value.integer 0)) = .error .truncatedInput :=
    (C8_error_propagation 1 (Any.serialize (Value.integer 0)) .truncatedInput).2.1
      (Value.integer 0) [] hA h1
  have e1 : fromLittleEndian 8 [1, 0, 0, 0, 0, 0, 0, 0] = 1 := by decide
  have e2 : List.drop 8 [1, 0, 0, 0, 0, 0, 0, 0] = ([] : Buffer) := by decide
  have h3 := ((C8_error_propagation 0 [1, 0, 0, 0, 0, 0, 0, 0] .truncatedInput).2.2.1
    (by decide) (by rw [e1, e2]; exact h1)).2
  have hV : VectorType.deserializeV ([] : Buffer) = .error .truncatedInput := by
    rw [VectorType.deserializeV_eq]
    simp
  have e3 : fromLittleEndian 8 [3, 0, 0, 0, 0, 0, 0, 0] = 3 := by decide
  have e4 : List.drop 8 [3, 0, 0, 0, 0, 0, 0, 0] = ([] : Buffer) := by decide
  have h4 := (C8_error_propagation 0 [3, 0, 0, 0, 0, 0, 0, 0] .truncatedInput).2.2.2
    (by decide) e3 (by rw [e4]; exact hV)
  exact ⟨h1, h2, h3, h4⟩

/-- Claim C9: the recursive decode is total — on every finite buffer it
either returns a value with an advanced cursor or fails with an error,
and every successful `Any::deserialize` consumes at least 8 bytes of
the remaining buffer (the model is a total function defined by
well-founded recursion on the remaining length, so termination holds
for arbitrarily large declared counts and nesting depths). -/
theorem C9_decode_terminates (buf : Buffer) :
    ((∃ v rest, Any.deserializeV buf = .ok (v, rest) ∧ rest.length + 8 ≤ buf.length) ∨
      (∃ e, Any.deserializeV buf = .error e)) ∧
    ((∃ vs, Serializator.deserialize buf = .ok vs) ∨
      (∃ e, Serializator.deserialize buf = .error e)) := by
  constructor
  · cases hA : Any.deserialize buf with
    | error e =>
      right
      exact ⟨e, by rw [Any.deserializeV, hA]; rfl⟩
    | ok p =>
      obtain ⟨⟨v, rest⟩, hp⟩ := p
      left
      exact ⟨v, rest, by rw [Any.deserializeV, hA]; rfl, hp⟩
  · cases hS : Serializator.deserialize buf with
    | error e => exact Or.inr ⟨e, rfl⟩
    | ok vs => exact Or.inl ⟨vs, rfl⟩

/-- Claim C10: `Serializator::deserialize` reads only the declared
count of values and never looks past them: appending arbitrary bytes
after a well-formed encoding neither changes the result nor causes an
error. -/
theorem C10_trailing_garbage (storage : List Value) (h1 : storage.length < 2 ^ 64)
    (h2 : allWf storage = true) (extra : Buffer) :
    Serializator.deserialize (Serializator.serialize storage ++ extra) = .ok storage ∧
    Serializator.deserialize (Serializator.serialize storage ++ extra) =
      Serializator.deserialize (Serializator.serialize storage) := by
  have ha := Serializator.roundtrip_append storage h1 h2 extra
  have hb := Serializator.roundtrip_append storage h1 h2 []
  rw [List.append_nil] at hb
  exact ⟨ha, by rw [ha, hb]⟩

theorem C10_trailing_garbage_witness :
    Serializator.deserialize (Serializator.serialize [Value.integer 1] ++ [255]) =
      .ok [Value.integer 1] ∧
    Serializator.deserialize (Serializator.serialize [Value.integer 1] ++ [255]) =
      Serializator.deserialize (Serializator.serialize [Value.integer 1]) :=
  C10_trailing_garbage [Value.integer 1] (by decide) (by simp [allWf, Value.wf]) [255]
